import Mathlib

/-!
Verification of the dingocoin-nodes-map crawler (apps/crawler/src/crawler.py and
apps/crawler/src/rpc.py) against its natural-language specification.

Python strings are embedded as `List Char`; Python `None` becomes `Option`;
machine floats that are only carried (latencies) become `ℚ`; timestamps become
abstract `Nat` instants supplied by the caller.  Each definition is a direct
translation of the function of the same name in the source.
-/

/-! ## Python string primitives -/

/-- The whitespace characters removed by Python `str.strip()` (ASCII subset). -/
def pyIsSpace (c : Char) : Bool :=
  c == ' ' || c == '\t' || c == '\n' || c == '\r' || c == '\x0b' || c == '\x0c'

/-- Python `str.strip()`: drop leading and trailing whitespace. -/
def pyStrip (s : List Char) : List Char :=
  ((s.dropWhile pyIsSpace).reverse.dropWhile pyIsSpace).reverse

/-- Python `str.lstrip(c)` for a single character: drop every leading `c`. -/
def pyLstripChar (c : Char) (s : List Char) : List Char :=
  s.dropWhile (fun x => x == c)

/-- Python `str.split(sep)` for a single-character separator:
`""` splits to `[""]`, separators at the ends produce empty components. -/
def splitOnChar (sep : Char) : List Char → List (List Char)
  | [] => [[]]
  | c :: rest =>
    match splitOnChar sep rest with
    | [] => if c = sep then [[], []] else [[c]]
    | h :: t => if c = sep then [] :: h :: t else (c :: h) :: t

/-- Value of a digit string (most significant first), as used by Python
`int` on an all-digit string. -/
def digitsToNat (ds : List Char) : Nat :=
  ds.foldl (fun acc c => acc * 10 + (c.toNat - Char.toNat '0')) 0

/-- Python `in` test for the character `:` on a string. -/
def hasColon (s : List Char) : Bool :=
  s.any (fun c => c == ':')

/-- Python `str.startswith(p)`. -/
def pyStartsWith : List Char → List Char → Bool
  | [], _ => true
  | _ :: _, [] => false
  | p :: ps, c :: cs => p == c && pyStartsWith ps cs

/-- Python `str.lower()` (ASCII). -/
def pyLower (s : List Char) : List Char :=
  s.map Char.toLower

/-- Helper for Python `int(str)`: a nonempty all-digit string parses, anything
else raises (modelled as `none`). -/
def intDigitsOpt (ds : List Char) : Option Int :=
  if ds ≠ [] ∧ ds.all Char.isDigit then some ((digitsToNat ds : Nat) : Int) else none

/-- Sign handling of Python `int(str)` after stripping whitespace. -/
def pyIntOfStripped : List Char → Option Int
  | [] => none
  | c :: rest =>
    if c = '+' then intDigitsOpt rest
    else if c = '-' then (intDigitsOpt rest).map (fun n => -n)
    else intDigitsOpt (c :: rest)

/-- Python `int(str)`: strip whitespace, optional sign, then digits;
`none` models the `ValueError` that the caller catches. -/
def pyIntOfChars (s : List Char) : Option Int :=
  pyIntOfStripped (pyStrip s)

/-! ## Version normalization (crawler.py `_normalize_version`, `_versions_match`) -/

/-- The digit characters kept from one version component:
`''.join(c for c in part if c.isdigit())` in the source keeps EVERY digit of
the component, not only the leading run. -/
def extractDigits (part : List Char) : List Char :=
  part.filter (fun c => c.isDigit)

/-- crawler.py `_normalize_version`: strip, remove leading `v` then `V`,
split on `.`, keep at most four components, map each component to the integer
value of its digit characters (0 when there are none), pad to four with zeros. -/
def normalize_version (version : List Char) : List Nat :=
  let stripped := pyLstripChar 'V' (pyLstripChar 'v' (pyStrip version))
  let parts := splitOnChar '.' stripped
  let normalized := (parts.take 4).map (fun part =>
    let numeric := extractDigits part
    if numeric.isEmpty then 0 else digitsToNat numeric)
  (normalized ++ List.replicate (4 - normalized.length) 0).take 4

/-- crawler.py `_versions_match`: elementwise equality of normalized versions. -/
def versions_match (v1 v2 : List Char) : Bool :=
  normalize_version v1 == normalize_version v2

/-- C3: evaluation of `_normalize_version`/`_versions_match` at the claim's
inputs.  The source joins ALL digit characters of a component, so the
component `0rc1` yields `int("01") = 1`, hence
`_versions_match("1.18.0rc1", "1.18.0")` is `false`, contradicting the claim
(and the source's own comment `handles "1.18.0rc1" -> "0"`); the other
consequences of the claim do hold. -/
theorem normalize_version_rc_divergence :
    normalize_version (String.toList ("1.18.0rc1")) = [1, 18, 1, 0] ∧
    versions_match (String.toList ("1.18.0rc1")) (String.toList ("1.18.0")) = false ∧
    versions_match (String.toList ("1.18.0")) (String.toList ("1.18.0.0")) = true ∧
    versions_match (String.toList ("v1.18.0")) (String.toList ("1.18.0")) = true ∧
    normalize_version (String.toList ("1.16.0.9")) = [1, 16, 0, 9] := by
  decide

/-! ## Database re-seed decision (crawler.py `_seed_from_database`) -/

/-- A Python `datetime`: an instant (seconds) plus whether it carries tzinfo
(offset-aware).  `datetime.now(timezone.utc)` is aware; `.replace(tzinfo=None)`
makes a value naive. -/
structure PyDateTime where
  epochSeconds : Int
  aware : Bool
deriving DecidableEq, Repr

/-- Python datetime subtraction: mixing an aware and a naive datetime raises
`TypeError` (modelled as `Except.error`); otherwise the difference in seconds. -/
def datetimeSub (a b : PyDateTime) : Except Unit Int :=
  if a.aware = b.aware then Except.ok (a.epochSeconds - b.epochSeconds) else Except.error ()

/-- Python `dt.replace(tzinfo=None)`. -/
def replaceTzNone (d : PyDateTime) : PyDateTime :=
  { d with aware := false }

/-- The `last_seen` column of a database record: absent, or present with the
outcome of `datetime.fromisoformat` (`Except.error` = the parse raised). -/
inductive LastSeenField where
  | absent
  | value (parsed : Except Unit PyDateTime)

/-- crawler.py `_seed_from_database`, the per-record `should_crawl` decision
(lines 729-758): any exception inside the `try` (a failed parse, or the
`TypeError` from subtracting a naive datetime from the aware
`datetime.now(timezone.utc)`) lands in the `except` branch which sets
`should_crawl = True`. -/
def seed_should_crawl (nowSeconds : Int) (status : String) (lastSeen : LastSeenField) : Bool :=
  match lastSeen with
  | LastSeenField.absent => true
  | LastSeenField.value (Except.error _) => true
  | LastSeenField.value (Except.ok dt) =>
    match datetimeSub { epochSeconds := nowSeconds, aware := true } (replaceTzNone dt) with
    | Except.error _ => true
    | Except.ok diffSeconds =>
      let minutesSince : ℚ := (diffSeconds : ℚ) / 60
      if status = "up" ∨ status = "reachable" then true
      else if status = "down" ∧ minutesSince > 30 then true
      else if minutesSince > 10 then true
      else false

/-- C4: evaluation of the `_seed_from_database` decision at the failing input.
A `down` record whose `last_seen` parsed successfully only five minutes ago is
still admitted: `datetime.now(timezone.utc)` is offset-aware while
`last_seen_dt.replace(tzinfo=None)` is naive, so the subtraction raises
`TypeError` and the `except` branch admits the record — the claim says a
`down` record is admitted only after more than 30 minutes.  The outcome is
the same whether the parsed datetime was aware or naive. -/
theorem seed_from_database_down_admitted_early :
    seed_should_crawl 1000 ("down")
      (LastSeenField.value (Except.ok { epochSeconds := 700, aware := true })) = true ∧
    seed_should_crawl 1000 ("down")
      (LastSeenField.value (Except.ok { epochSeconds := 700, aware := false })) = true ∧
    seed_should_crawl 1000 ("unknown")
      (LastSeenField.value (Except.ok { epochSeconds := 940, aware := true })) = true := by
  decide

/-! ## IP validity filter (crawler.py `_is_valid_ip`) -/

/-- Python `os.getenv("NODE_ENV", "").lower() == "development"`. -/
def is_development (nodeEnv : Option (List Char)) : Bool :=
  pyLower (nodeEnv.getD []) == String.toList ("development")

/-- The list comprehension `[int(p) for p in parts]`: `none` models the
`ValueError` raised by any component, which the caller's `except` turns into
`False`. -/
def mapIntParse : List (List Char) → Option (List Int)
  | [] => some []
  | p :: ps =>
    match pyIntOfChars p, mapIntParse ps with
    | some n, some ns => some (n :: ns)
    | _, _ => none

/-- crawler.py `_is_valid_ip` (lines 574-609).  A string containing `:` takes
the IPv6 branch, which is a textual-prefix test; otherwise the string is split
on `.`, each part is fed to `int`, and the private-range / zero-net rules are
applied, with private ranges allowed in development mode. -/
def is_valid_ip (nodeEnv : Option (List Char)) (ip : List Char) : Bool :=
  if hasColon ip then
    if pyStartsWith (String.toList ("::1")) ip || pyStartsWith (String.toList ("fe80:")) ip
        || pyStartsWith (String.toList ("fc00:")) ip || pyStartsWith (String.toList ("fd00:")) ip then
      false
    else
      true
  else
    let parts := splitOnChar '.' ip
    if parts.length ≠ 4 then false
    else
      match mapIntParse parts with
      | none => false
      | some nums =>
        let n0 := nums.getD 0 0
        let n1 := nums.getD 1 0
        if n0 = 10 then is_development nodeEnv
        else if n0 = 172 ∧ 16 ≤ n1 ∧ n1 ≤ 31 then is_development nodeEnv
        else if n0 = 192 ∧ n1 = 168 then is_development nodeEnv
        else if n0 = 127 then is_development nodeEnv
        else if n0 = 0 then false
        else true

/-! ## Discovery-set key bookkeeping (crawler.py `pending` / `crawled` sets) -/

/-- Adding a key to a Python `set` (no duplicates). -/
def addKey (k : String) (l : List String) : List String :=
  if k ∈ l then l else k :: l

/-- Python `set.discard`. -/
def removeKey (k : String) (l : List String) : List String :=
  l.filter (fun x => x != k)

theorem mem_addKey {x k : String} {l : List String} :
    x ∈ addKey k l ↔ x = k ∨ x ∈ l := by
  unfold addKey
  split
  · constructor
    · exact fun h => Or.inr h
    · rintro (rfl | h)
      · assumption
      · assumption
  · exact List.mem_cons

theorem mem_removeKey {x k : String} {l : List String} :
    x ∈ removeKey k l ↔ x ∈ l ∧ x ≠ k := by
  unfold removeKey
  simp [List.mem_filter]

/-- The per-pass discovery-set state: the `pending` and `crawled` key sets of
the `Crawler` object (keys are the `"ip:port"` strings of `_node_key`). -/
structure CrawlSt where
  pending : List String
  crawled : List String
deriving DecidableEq

/-- crawler.py `_node_key` applied to a peer whose ip is a char list. -/
def peer_node_key (ipChars : List Char) (port : Nat) : String :=
  String.mk ipChars ++ ":" ++ toString port

/-- crawler.py `_crawl_node` lines 538-543: admitting one address from a
peer's addr response — insert into `pending` only if the key is in neither
`crawled` nor `pending` and the ip passes `_is_valid_ip`. -/
def admit_discovered_peer (nodeEnv : Option (List Char)) (st : CrawlSt)
    (peerIp : List Char) (port : Nat) : CrawlSt :=
  let k := peer_node_key peerIp port
  if k ∉ st.crawled ∧ k ∉ st.pending then
    if is_valid_ip nodeEnv peerIp then { st with pending := addKey k st.pending } else st
  else st

/-! ## Character and string lemmas for the IPv4 path -/

theorem isDigit_not_space {c : Char} (h : c.isDigit = true) : pyIsSpace c = false := by
  cases hs : pyIsSpace c
  · rfl
  · exfalso
    simp only [pyIsSpace, Bool.or_eq_true, beq_iff_eq] at hs
    rcases hs with ((((rfl | rfl) | rfl) | rfl) | rfl) | rfl <;> exact absurd h (by decide)

theorem isDigit_ne_dot {c : Char} (h : c.isDigit = true) : c ≠ '.' := by
  intro e
  subst e
  exact absurd h (by decide)

theorem isDigit_ne_colon {c : Char} (h : c.isDigit = true) : c ≠ ':' := by
  intro e
  subst e
  exact absurd h (by decide)

theorem isDigit_ne_plus {c : Char} (h : c.isDigit = true) : ¬(c = '+') := by
  intro e
  subst e
  exact absurd h (by decide)

theorem isDigit_ne_minus {c : Char} (h : c.isDigit = true) : ¬(c = '-') := by
  intro e
  subst e
  exact absurd h (by decide)

theorem dropWhile_eq_self_of {p : Char → Bool} {l : List Char}
    (h : ∀ c ∈ l, p c = false) : l.dropWhile p = l := by
  cases l with
  | nil => rfl
  | cons c t =>
    rw [List.dropWhile_cons, h c (List.mem_cons_self c t)]
    simp

theorem pyStrip_eq_self {s : List Char} (h : ∀ c ∈ s, pyIsSpace c = false) :
    pyStrip s = s := by
  unfold pyStrip
  rw [dropWhile_eq_self_of h,
    dropWhile_eq_self_of (fun c hc => h c (List.mem_reverse.mp hc)),
    List.reverse_reverse]

theorem pyIntOfChars_digits {s : List Char} (hne : s ≠ [])
    (hd : ∀ c ∈ s, c.isDigit = true) :
    pyIntOfChars s = some ((digitsToNat s : Nat) : Int) := by
  have hstrip : pyStrip s = s := pyStrip_eq_self (fun c hc => isDigit_not_space (hd c hc))
  unfold pyIntOfChars
  rw [hstrip]
  cases s with
  | nil => exact absurd rfl hne
  | cons c t =>
    have hc := hd c (List.mem_cons_self c t)
    simp only [pyIntOfStripped]
    rw [if_neg (isDigit_ne_plus hc), if_neg (isDigit_ne_minus hc)]
    unfold intDigitsOpt
    rw [if_pos]
    refine ⟨List.cons_ne_nil c t, ?_⟩
    rw [List.all_eq_true]
    exact fun x hx => hd x hx

theorem splitOnChar_ne_nil (sep : Char) : ∀ l, splitOnChar sep l ≠ [] := by
  intro l
  cases l with
  | nil => simp [splitOnChar]
  | cons c rest =>
    cases h : splitOnChar sep rest with
    | nil =>
      simp only [splitOnChar, h]
      split <;> simp
    | cons a t =>
      simp only [splitOnChar, h]
      split <;> simp

theorem splitOnChar_no_sep (sep : Char) : ∀ l, (∀ c ∈ l, c ≠ sep) →
    splitOnChar sep l = [l] := by
  intro l
  induction l with
  | nil => intro h; rfl
  | cons c rest ih =>
    intro h
    have hrest := ih (fun x hx => h x (List.mem_cons_of_mem c hx))
    simp only [splitOnChar, hrest]
    rw [if_neg (h c (List.mem_cons_self c rest))]

theorem splitOnChar_append (sep : Char) : ∀ xs ys, (∀ c ∈ xs, c ≠ sep) →
    splitOnChar sep (xs ++ sep :: ys) = xs :: splitOnChar sep ys := by
  intro xs
  induction xs with
  | nil =>
    intro ys _
    simp only [List.nil_append, splitOnChar]
    cases hy : splitOnChar sep ys with
    | nil => exact absurd hy (splitOnChar_ne_nil sep ys)
    | cons a t => simp
  | cons c rest ih =>
    intro ys h
    have hr := ih ys (fun x hx => h x (List.mem_cons_of_mem c hx))
    simp only [List.cons_append, splitOnChar, List.append_eq, hr]
    rw [if_neg (h c (List.mem_cons_self c rest))]

theorem admit_discovered_peer_not_valid {nodeEnv : Option (List Char)} {st : CrawlSt}
    {peerIp : List Char} {port : Nat} (hv : is_valid_ip nodeEnv peerIp = false) :
    (admit_discovered_peer nodeEnv st peerIp port).pending = st.pending := by
  simp only [admit_discovered_peer]
  rw [hv]
  simp

theorem admit_discovered_peer_valid_new {nodeEnv : Option (List Char)} {st : CrawlSt}
    {peerIp : List Char} {port : Nat} (hv : is_valid_ip nodeEnv peerIp = true)
    (hcr : peer_node_key peerIp port ∉ st.crawled)
    (hpe : peer_node_key peerIp port ∉ st.pending) :
    peer_node_key peerIp port ∈ (admit_discovered_peer nodeEnv st peerIp port).pending := by
  simp only [admit_discovered_peer]
  rw [if_pos ⟨hcr, hpe⟩, if_pos hv]
  exact mem_addKey.mpr (Or.inl rfl)

/-- C8: on a dotted quad of nonempty all-digit components, `_is_valid_ip`
rejects first octet 0 unconditionally, accepts the private ranges
10/8, 172.16/12, 192.168/16 and 127/8 exactly when development mode is on
(`NODE_ENV=development`), and accepts everything else; consequently the
discovered peer 10.0.0.1:8333 is never added to `pending` when `NODE_ENV` is
unset and is added (when new) under `NODE_ENV=development`. -/
theorem is_valid_ip_ipv4_rules (nodeEnv : Option (List Char)) (s0 s1 s2 s3 : List Char)
    (h0n : s0 ≠ []) (h0d : ∀ c ∈ s0, c.isDigit = true)
    (h1n : s1 ≠ []) (h1d : ∀ c ∈ s1, c.isDigit = true)
    (h2n : s2 ≠ []) (h2d : ∀ c ∈ s2, c.isDigit = true)
    (h3n : s3 ≠ []) (h3d : ∀ c ∈ s3, c.isDigit = true) :
    (is_valid_ip nodeEnv (s0 ++ '.' :: (s1 ++ '.' :: (s2 ++ '.' :: s3))) =
      (if digitsToNat s0 = 0 then false
       else if digitsToNat s0 = 10 ∨
          (digitsToNat s0 = 172 ∧ 16 ≤ digitsToNat s1 ∧ digitsToNat s1 ≤ 31) ∨
          (digitsToNat s0 = 192 ∧ digitsToNat s1 = 168) ∨
          digitsToNat s0 = 127 then is_development nodeEnv
       else true)) ∧
    (∀ st : CrawlSt,
      (admit_discovered_peer none st (String.toList ("10.0.0.1")) 8333).pending = st.pending) ∧
    (∀ st : CrawlSt,
      peer_node_key (String.toList ("10.0.0.1")) 8333 ∉ st.crawled →
      peer_node_key (String.toList ("10.0.0.1")) 8333 ∉ st.pending →
      peer_node_key (String.toList ("10.0.0.1")) 8333 ∈
        (admit_discovered_peer (some (String.toList ("development"))) st
          (String.toList ("10.0.0.1")) 8333).pending) := by
  refine ⟨?_, ?_, ?_⟩
  · have hall : ∀ c ∈ (s0 ++ '.' :: (s1 ++ '.' :: (s2 ++ '.' :: s3))), c ≠ ':' := by
      intro c hc
      rcases List.mem_append.mp hc with h | h
      · exact isDigit_ne_colon (h0d c h)
      rcases List.mem_cons.mp h with rfl | h
      · decide
      rcases List.mem_append.mp h with h | h
      · exact isDigit_ne_colon (h1d c h)
      rcases List.mem_cons.mp h with rfl | h
      · decide
      rcases List.mem_append.mp h with h | h
      · exact isDigit_ne_colon (h2d c h)
      rcases List.mem_cons.mp h with rfl | h
      · decide
      exact isDigit_ne_colon (h3d c h)
    have hcolon : hasColon (s0 ++ '.' :: (s1 ++ '.' :: (s2 ++ '.' :: s3))) = false := by
      simp only [hasColon, List.any_eq_false, beq_iff_eq]
      exact hall
    have hsplit : splitOnChar '.' (s0 ++ '.' :: (s1 ++ '.' :: (s2 ++ '.' :: s3))) =
        [s0, s1, s2, s3] := by
      rw [splitOnChar_append '.' s0 _ (fun c hc => isDigit_ne_dot (h0d c hc)),
        splitOnChar_append '.' s1 _ (fun c hc => isDigit_ne_dot (h1d c hc)),
        splitOnChar_append '.' s2 _ (fun c hc => isDigit_ne_dot (h2d c hc)),
        splitOnChar_no_sep '.' s3 (fun c hc => isDigit_ne_dot (h3d c hc))]
    have hmap : mapIntParse [s0, s1, s2, s3] =
        some [((digitsToNat s0 : Nat) : Int), ((digitsToNat s1 : Nat) : Int),
          ((digitsToNat s2 : Nat) : Int), ((digitsToNat s3 : Nat) : Int)] := by
      simp only [mapIntParse, pyIntOfChars_digits h0n h0d, pyIntOfChars_digits h1n h1d,
        pyIntOfChars_digits h2n h2d, pyIntOfChars_digits h3n h3d]
    simp only [is_valid_ip, hcolon, Bool.false_eq_true, if_false, hsplit, hmap,
      List.length_cons, List.length_nil, List.getD_cons_zero, List.getD_cons_succ]
    split_ifs <;> first | rfl | omega
  · intro st
    exact admit_discovered_peer_not_valid (by decide)
  · intro st hcr hpe
    exact admit_discovered_peer_valid_new (by decide) hcr hpe

/-- Witness for `is_valid_ip_ipv4_rules` at the concrete quad 10.0.0.1: the
private address is rejected without `NODE_ENV` and its key is admitted to an
empty pending set under development mode. -/
theorem is_valid_ip_ipv4_rules_witness :
    is_valid_ip none (String.toList ("10.0.0.1")) = false ∧
    (admit_discovered_peer none { pending := [], crawled := [] }
      (String.toList ("10.0.0.1")) 8333).pending = [] ∧
    peer_node_key (String.toList ("10.0.0.1")) 8333 ∈
      (admit_discovered_peer (some (String.toList ("development")))
        { pending := [], crawled := [] } (String.toList ("10.0.0.1")) 8333).pending := by
  have h := is_valid_ip_ipv4_rules none (String.toList ("10")) (String.toList ("0"))
    (String.toList ("0")) (String.toList ("1")) (by decide) (by decide) (by decide)
    (by decide) (by decide) (by decide) (by decide) (by decide)
  refine ⟨?_, ?_, ?_⟩
  · have h1 := h.1
    have e : String.toList ("10.0.0.1") =
        String.toList ("10") ++ '.' :: (String.toList ("0") ++ '.' ::
          (String.toList ("0") ++ '.' :: String.toList ("1"))) := by decide
    rw [e, h1]
    decide
  · exact h.2.1 { pending := [], crawled := [] }
  · exact h.2.2 { pending := [], crawled := [] } (by simp) (by simp)

/-- C9 (amended): on any string containing `:`, `_is_valid_ip` is a textual
prefix test — it returns `false` exactly when the string starts with `::1`,
`fe80:`, `fc00:` or `fd00:`, and `true` for every other such string.  This is
not CIDR membership: other spellings inside fe80::/10 or fc00::/7 pass. -/
theorem is_valid_ip_ipv6_prefix_test (nodeEnv : Option (List Char)) (ip : List Char)
    (h : hasColon ip = true) :
    is_valid_ip nodeEnv ip =
      !(pyStartsWith (String.toList ("::1")) ip || pyStartsWith (String.toList ("fe80:")) ip
        || pyStartsWith (String.toList ("fc00:")) ip
        || pyStartsWith (String.toList ("fd00:")) ip) := by
  unfold is_valid_ip
  rw [if_pos h]
  cases hb : (pyStartsWith (String.toList ("::1")) ip
      || pyStartsWith (String.toList ("fe80:")) ip
      || pyStartsWith (String.toList ("fc00:")) ip
      || pyStartsWith (String.toList ("fd00:")) ip) <;> simp

/-- Witness for `is_valid_ip_ipv6_prefix_test`: literal `fe80::7` is rejected,
and `2001:db8::1` is accepted. -/
theorem is_valid_ip_ipv6_prefix_test_witness :
    is_valid_ip none (String.toList ("fe80::7")) = false ∧
    is_valid_ip none (String.toList ("2001:db8::1")) = true := by
  constructor
  · rw [is_valid_ip_ipv6_prefix_test none (String.toList ("fe80::7")) (by decide)]
    decide
  · rw [is_valid_ip_ipv6_prefix_test none (String.toList ("2001:db8::1")) (by decide)]
    decide

/-- C9 counterexample: `fe9f::1` lies inside fe80::/10 and `fd12:3456::1`
lies inside fc00::/7, so the claim requires `_is_valid_ip` to return `false`
on both; the code accepts both, because it only compares the textual prefixes
`::1`, `fe80:`, `fc00:`, `fd00:`. -/
theorem is_valid_ip_ipv6_cidr_counterexample :
    is_valid_ip none (String.toList ("fe9f::1")) = true ∧
    is_valid_ip none (String.toList ("fd12:3456::1")) = true := by
  decide

/-! ## Node data model (crawler.py `NodeInfo`, protocol.py `NetAddr`) -/

/-- Modelled from the spec: `NetAddr` lives in protocol.py, which is not part
of the sources; spec section 3 gives its fields `{ip, port, services,
timestamp}`. -/
structure NetAddr where
  ip : String
  port : Nat
  services : Int
  timestamp : Int
deriving DecidableEq

/-- crawler.py `NodeInfo` dataclass.  The two timestamp fields default to the
creation instant, which callers of this model pass explicitly. -/
structure NodeInfo where
  ip : String
  port : Nat
  version : Option String := none
  protocol_version : Option Int := none
  services : Option Int := none
  start_height : Option Int := none
  user_agent : Option String := none
  latency_ms : Option ℚ := none
  status : String := "pending"
  first_seen : Nat := 0
  last_seen : Nat := 0
  times_seen : Nat := 1
  peers : List NetAddr := []
deriving DecidableEq

/-! ## One connection attempt (crawler.py `_try_connect_with_protocol`) -/

/-- Modelled from the spec: the fields captured by protocol.py
`parse_version_payload` (spec section 4.1), all present in a parsed frame. -/
structure VersionData where
  version : Int
  services : Int
  start_height : Int
  user_agent : String
deriving DecidableEq

/-- Modelled from the spec: a frame decoded by protocol.py `parse_message`
(spec section 4.1), identified by its command string. -/
inductive PMsg where
  | versionMsg (vd : VersionData)
  | verackMsg
  | otherMsg (cmd : String)
deriving DecidableEq

/-- Outcome of the version-read loop of `_try_connect_with_protocol`
(lines 309-356): either no byte arrived before the deadline / the peer closed
silently (`data` stays empty), or bytes arrived and `msgs` is the list of
frames that `parse_message` decoded before the buffer was exhausted or a
`ValueError` stopped the loop (an unparseable buffer gives `someData []`). -/
inductive ReadOutcome where
  | noData
  | someData (msgs : List PMsg)
deriving DecidableEq

/-- The environment of one dial: what the network did.  `tcp_latency` is
`none` when the TCP connect raised (timeout/refused/OS error); `full_latency`
is the value of `(time.time() - start_time) * 1000` at line 407;
`addr_peers` is the parsed addr response of the 60-second wait loop
(`[]` when none arrived). -/
structure DialEnv where
  tcp_latency : Option ℚ
  read_outcome : ReadOutcome
  full_latency : ℚ
  addr_peers : List NetAddr
deriving DecidableEq

/-- The parse loop of lines 366-399: every decoded `version` frame overwrites
the captured attributes, so the last one wins. -/
def last_version_data (msgs : List PMsg) : Option VersionData :=
  msgs.foldl (fun acc m =>
    match m with
    | PMsg.versionMsg vd => some vd
    | _ => acc) none

/-- crawler.py `_try_connect_with_protocol` (lines 265-496), with the network
abstracted into a `DialEnv`: `none` for a failed TCP connect; a `reachable`
NodeInfo carrying the TCP latency when no data or no parseable version frame
arrived; otherwise an `up` NodeInfo with the attributes of the last version
frame, the full handshake latency and the addr-phase peers.  The
`protocol_version` sent and the timeout only shape the environment, not this
classification. -/
def try_connect_with_protocol (ip : String) (port : Nat) (now : Nat)
    (env : DialEnv) : Option NodeInfo :=
  match env.tcp_latency with
  | none => none
  | some tcpLatency =>
    match env.read_outcome with
    | ReadOutcome.noData =>
      some { ip := ip, port := port, status := "reachable", latency_ms := some tcpLatency,
             first_seen := now, last_seen := now }
    | ReadOutcome.someData msgs =>
      match last_version_data msgs with
      | none =>
        some { ip := ip, port := port, status := "reachable", latency_ms := some tcpLatency,
               first_seen := now, last_seen := now }
      | some vd =>
        some { ip := ip, port := port,
               version := some vd.user_agent,
               protocol_version := some vd.version,
               services := some vd.services,
               start_height := some vd.start_height,
               user_agent := some vd.user_agent,
               latency_ms := some env.full_latency,
               status := "up",
               first_seen := now, last_seen := now,
               peers := env.addr_peers }

/-- C6: when the TCP connect succeeds and zero bytes arrive before the read
deadline (or the peer closes without sending), `_try_connect_with_protocol`
returns a NodeInfo — never `None` — whose status is `reachable` (never `up`)
and whose `latency_ms` is the measured TCP connect latency. -/
theorem tcp_only_peer_is_reachable (ip : String) (port : Nat) (now : Nat)
    (env : DialEnv) (tcpLatency : ℚ)
    (hconn : env.tcp_latency = some tcpLatency)
    (hmute : env.read_outcome = ReadOutcome.noData) :
    ∃ ni, try_connect_with_protocol ip port now env = some ni ∧
      ni.status = "reachable" ∧ ni.status ≠ "up" ∧ ni.latency_ms = some tcpLatency := by
  have h : try_connect_with_protocol ip port now env =
      some { ip := ip, port := port, status := "reachable", latency_ms := some tcpLatency,
             first_seen := now, last_seen := now } := by
    unfold try_connect_with_protocol
    rw [hconn, hmute]
  exact ⟨_, h, rfl, (by decide : ("reachable" : String) ≠ "up"), rfl⟩

/-- Witness for `tcp_only_peer_is_reachable` at a concrete mute peer. -/
theorem tcp_only_peer_is_reachable_witness :
    ∃ ni, try_connect_with_protocol ("198.51.100.5") 33117 0
        { tcp_latency := some 12, read_outcome := ReadOutcome.noData,
          full_latency := 99, addr_peers := [] } = some ni ∧
      ni.status = "reachable" ∧ ni.status ≠ "up" ∧ ni.latency_ms = some 12 :=
  tcp_only_peer_is_reachable ("198.51.100.5") 33117 0
    { tcp_latency := some 12, read_outcome := ReadOutcome.noData,
      full_latency := 99, addr_peers := [] } 12 rfl rfl

/-! ## Retry and protocol fallback (crawler.py `_connect_and_handshake`) -/

/-- The crawlerConfig fields read by `_connect_and_handshake`.  The backoff
sleep parameters only delay execution and do not influence the returned
classification. -/
structure RetryConfig where
  max_retries : Nat
  connection_timeout : Nat
  extended_timeout : Nat
  protocol_version : Int
  fallback_protocol_versions : List Int
  initial_retry_delay : ℚ
  retry_backoff_multiplier : ℚ
deriving DecidableEq

/-- Python `last_result and last_result.status == "reachable"`. -/
def is_reachable_result : Option NodeInfo → Bool
  | some r => r.status == "reachable"
  | none => false

/-- The inner protocol-version loop of one attempt (lines 190-243).  `dial`
stands for the awaited `_try_connect_with_protocol(ip, port, pv, timeout)`,
indexed by attempt number, protocol version and timeout.  `Sum.inl r` is the
early `return result` on an `up` result; `Sum.inr last` is falling off the
loop (or `break` on a `None` result) carrying the current `last_result`. -/
def try_protocols (cfg : RetryConfig) (dial : Nat → Int → Nat → Option NodeInfo)
    (attempt : Nat) : Option NodeInfo → List Int → Sum NodeInfo (Option NodeInfo)
  | last, [] => Sum.inr last
  | last, pv :: rest =>
    match dial attempt pv
        (if is_reachable_result last ∧ 0 < attempt then cfg.extended_timeout
         else cfg.connection_timeout) with
    | none => Sum.inr none
    | some r =>
      if r.status = "up" then Sum.inl r
      else try_protocols cfg dial attempt (some r) rest

/-- The retry loop of lines 175-263, counting down the remaining attempts;
at exhaustion, `last_result` is returned when its status is `reachable`,
otherwise `None`. -/
def retry_loop (cfg : RetryConfig) (dial : Nat → Int → Nat → Option NodeInfo) :
    Nat → Nat → Option NodeInfo → Option NodeInfo
  | 0, _, last => if is_reachable_result last then last else none
  | n + 1, attempt, last =>
    match try_protocols cfg dial attempt last
        (cfg.protocol_version :: cfg.fallback_protocol_versions) with
    | Sum.inl r => some r
    | Sum.inr last2 => retry_loop cfg dial n (attempt + 1) last2

/-- crawler.py `_connect_and_handshake` (lines 150-263) with the dial
abstracted: `max_retries + 1` attempts, each over
`[protocol_version] + fallback_protocol_versions`. -/
def connect_and_handshake (cfg : RetryConfig)
    (dial : Nat → Int → Nat → Option NodeInfo) : Option NodeInfo :=
  retry_loop cfg dial (cfg.max_retries + 1) 0 none

theorem try_protocols_no_up (cfg : RetryConfig) (dial : Nat → Int → Nat → Option NodeInfo)
    (attempt : Nat)
    (hnoup : ∀ a pv t r, dial a pv t = some r → ¬r.status = "up") :
    ∀ pvs last, ∃ last2, try_protocols cfg dial attempt last pvs = Sum.inr last2 := by
  intro pvs
  induction pvs with
  | nil => exact fun last => ⟨last, rfl⟩
  | cons pv rest ih =>
    intro last
    simp only [try_protocols]
    cases hd : dial attempt pv
        (if is_reachable_result last ∧ 0 < attempt then cfg.extended_timeout
         else cfg.connection_timeout) with
    | none => exact ⟨none, rfl⟩
    | some r =>
      obtain ⟨last2, hl2⟩ := ih (some r)
      refine ⟨last2, ?_⟩
      show (if r.status = "up" then Sum.inl r
        else try_protocols cfg dial attempt (some r) rest) = Sum.inr last2
      rw [if_neg (hnoup _ _ _ _ hd)]
      exact hl2

theorem retry_loop_last_unreachable (cfg : RetryConfig)
    (dial : Nat → Int → Nat → Option NodeInfo)
    (hnoup : ∀ a pv t r, dial a pv t = some r → ¬r.status = "up")
    (hlast : ∀ t, dial cfg.max_retries cfg.protocol_version t = none) :
    ∀ n attempt last, attempt + n = cfg.max_retries →
      retry_loop cfg dial (n + 1) attempt last = none := by
  intro n
  induction n with
  | zero =>
    intro attempt last h
    have ha : attempt = cfg.max_retries := by omega
    subst ha
    simp only [retry_loop, try_protocols, hlast]
    simp [is_reachable_result]
  | succ m ih =>
    intro attempt last h
    simp only [retry_loop]
    obtain ⟨last2, h2⟩ := try_protocols_no_up cfg dial attempt hnoup
      (cfg.protocol_version :: cfg.fallback_protocol_versions) last
    rw [h2]
    exact ih (attempt + 1) last2 (by omega)

/-- C1 (amended): after exhausting all attempts without any `up` result,
`_connect_and_handshake` returns the classification of the LAST dial, not the
best one observed: whenever no dial ever returns `up` and the first dial of
the final attempt returns `Unreachable` (`None`), the function returns `None`
— even if an earlier attempt observed `Reachable`.  (`Reachable` is returned
only when the last dial performed returned it, because `last_result` is
overwritten by every dial, including by `None`.) -/
theorem connect_and_handshake_returns_last_dial (cfg : RetryConfig)
    (dial : Nat → Int → Nat → Option NodeInfo)
    (hnoup : ∀ a pv t r, dial a pv t = some r → ¬r.status = "up")
    (hlast : ∀ t, dial cfg.max_retries cfg.protocol_version t = none) :
    connect_and_handshake cfg dial = none :=
  retry_loop_last_unreachable cfg dial hnoup hlast cfg.max_retries 0 none (by omega)

/-- Retry configuration used by the C1 counterexample and witness:
one retry, a single protocol version. -/
def cfgC1 : RetryConfig :=
  { max_retries := 1, connection_timeout := 5, extended_timeout := 10,
    protocol_version := 70015, fallback_protocol_versions := [],
    initial_retry_delay := 1, retry_backoff_multiplier := 2 }

/-- The `reachable` NodeInfo observed by the C1 counterexample's first dial. -/
def reachC1 : NodeInfo :=
  { ip := "203.0.113.9", port := 33117, status := "reachable", latency_ms := some 7 }

/-- The dial behaviour of the C1 counterexample: attempt 0 finds the target
reachable, every later attempt finds it unreachable. -/
def dialC1 : Nat → Int → Nat → Option NodeInfo :=
  fun a _ _ => if a = 0 then some reachC1 else none

/-- C1 counterexample: a dial sequence whose first attempt returns
`Reachable` and whose final attempt returns `Unreachable` makes
`_connect_and_handshake` return `None` — the claim demands a `reachable`
NodeInfo because a `Reachable` was observed on an early attempt. -/
theorem connect_and_handshake_drops_early_reachable :
    dialC1 0 70015 5 = some reachC1 ∧ reachC1.status = "reachable" ∧
    (∀ pv t, dialC1 1 pv t = none) ∧
    connect_and_handshake cfgC1 dialC1 = none := by
  refine ⟨rfl, rfl, fun pv t => rfl, ?_⟩
  decide

/-- Witness for `connect_and_handshake_returns_last_dial`: with every dial
unreachable, the result is `None`. -/
theorem connect_and_handshake_returns_last_dial_witness :
    connect_and_handshake cfgC1 (fun _ _ _ => none) = none :=
  connect_and_handshake_returns_last_dial cfgC1 (fun _ _ _ => none)
    (fun _ _ _ _ h => Option.noConfusion h) (fun _ => rfl)

/-! ## Recording a dial result (crawler.py `_crawl_node`, lines 516-535) -/

/-- The update applied to an existing `nodes[key]` entry when
`_connect_and_handshake` returned a NodeInfo (lines 520-532): version
attributes and peers are copied only on a full handshake (`status == "up"`);
latency, status, `last_seen` and `times_seen` are always updated. -/
def record_update_existing (existing ni : NodeInfo) (now : Nat) : NodeInfo :=
  let e1 :=
    if ni.status = "up" then
      { existing with
          version := ni.version,
          protocol_version := ni.protocol_version,
          services := ni.services,
          start_height := ni.start_height,
          peers := ni.peers }
    else existing
  { e1 with
      latency_ms := ni.latency_ms,
      status := ni.status,
      last_seen := now,
      times_seen := e1.times_seen + 1 }

/-- The `nodes` map update of `_crawl_node` lines 519-535 for a non-`None`
dial result: update the existing entry or insert the fresh NodeInfo. -/
def record_dial_result (nodes : String → Option NodeInfo) (key : String)
    (ni : NodeInfo) (now : Nat) : String → Option NodeInfo :=
  match nodes key with
  | some existing =>
    fun x => if x = key then some (record_update_existing existing ni now) else nodes x
  | none =>
    fun x => if x = key then some ni else nodes x

/-- C10: recording a `reachable` dial result over an existing entry leaves
`version`, `protocol_version`, `services`, `start_height`, `user_agent` and
`peers` untouched (as well as the identity fields and `first_seen`); only
`latency_ms`, `status`, `last_seen` and `times_seen` change, and entries at
other keys are untouched. -/
theorem record_reachable_preserves_version_fields
    (nodes : String → Option NodeInfo) (key : String) (existing ni : NodeInfo)
    (now : Nat) (hex : nodes key = some existing) (hst : ni.status = "reachable") :
    record_dial_result nodes key ni now key =
      some (record_update_existing existing ni now) ∧
    (record_update_existing existing ni now).version = existing.version ∧
    (record_update_existing existing ni now).protocol_version = existing.protocol_version ∧
    (record_update_existing existing ni now).services = existing.services ∧
    (record_update_existing existing ni now).start_height = existing.start_height ∧
    (record_update_existing existing ni now).user_agent = existing.user_agent ∧
    (record_update_existing existing ni now).peers = existing.peers ∧
    (record_update_existing existing ni now).ip = existing.ip ∧
    (record_update_existing existing ni now).port = existing.port ∧
    (record_update_existing existing ni now).first_seen = existing.first_seen ∧
    (record_update_existing existing ni now).latency_ms = ni.latency_ms ∧
    (record_update_existing existing ni now).status = "reachable" ∧
    (record_update_existing existing ni now).last_seen = now ∧
    (record_update_existing existing ni now).times_seen = existing.times_seen + 1 ∧
    (∀ x, x ≠ key → record_dial_result nodes key ni now x = nodes x) := by
  have hnotup : ¬ni.status = "up" := by
    rw [hst]
    decide
  have hrec : record_update_existing existing ni now =
      { existing with
          latency_ms := ni.latency_ms,
          status := ni.status,
          last_seen := now,
          times_seen := existing.times_seen + 1 } := by
    unfold record_update_existing
    rw [if_neg hnotup]
  refine ⟨?_, ?_, ?_, ?_, ?_, ?_, ?_, ?_, ?_, ?_, ?_, ?_, ?_, ?_, ?_⟩
  · unfold record_dial_result
    rw [hex]
    simp
  · rw [hrec]
  · rw [hrec]
  · rw [hrec]
  · rw [hrec]
  · rw [hrec]
  · rw [hrec]
  · rw [hrec]
  · rw [hrec]
  · rw [hrec]
  · rw [hrec]
  · rw [hrec, hst]
  · rw [hrec]
  · rw [hrec]
  · intro x hx
    unfold record_dial_result
    rw [hex]
    simp [hx]

/-- Witness for `record_reachable_preserves_version_fields` at a concrete
existing `up` entry overwritten by a `reachable` result. -/
theorem record_reachable_preserves_version_fields_witness :
    (fun x => if x = "203.0.113.9:33117" then
        some ({ ip := "203.0.113.9", port := 33117, status := "up",
                protocol_version := some 70015, user_agent := some "/Dingo:1.18.0/",
                version := some "/Dingo:1.18.0/" } : NodeInfo)
      else none) ("203.0.113.9:33117") =
      some ({ ip := "203.0.113.9", port := 33117, status := "up",
              protocol_version := some 70015, user_agent := some "/Dingo:1.18.0/",
              version := some "/Dingo:1.18.0/" } : NodeInfo) ∧
    (record_update_existing
        { ip := "203.0.113.9", port := 33117, status := "up",
          protocol_version := some 70015, user_agent := some "/Dingo:1.18.0/",
          version := some "/Dingo:1.18.0/" }
        { ip := "203.0.113.9", port := 33117, status := "reachable",
          latency_ms := some 7 } 5).protocol_version = some 70015 ∧
    (record_update_existing
        { ip := "203.0.113.9", port := 33117, status := "up",
          protocol_version := some 70015, user_agent := some "/Dingo:1.18.0/",
          version := some "/Dingo:1.18.0/" }
        { ip := "203.0.113.9", port := 33117, status := "reachable",
          latency_ms := some 7 } 5).status = "reachable" := by
  have h := record_reachable_preserves_version_fields
    (fun x => if x = "203.0.113.9:33117" then
        some ({ ip := "203.0.113.9", port := 33117, status := "up",
                protocol_version := some 70015, user_agent := some "/Dingo:1.18.0/",
                version := some "/Dingo:1.18.0/" } : NodeInfo)
      else none)
    ("203.0.113.9:33117")
    { ip := "203.0.113.9", port := 33117, status := "up",
      protocol_version := some 70015, user_agent := some "/Dingo:1.18.0/",
      version := some "/Dingo:1.18.0/" }
    { ip := "203.0.113.9", port := 33117, status := "reachable", latency_ms := some 7 }
    5 (by simp) rfl
  exact ⟨by simp, h.2.2.1.trans (by rfl), h.2.2.2.2.2.2.2.2.2.2.2.1⟩

/-! ## Local RPC node (rpc.py `get_local_node_info`,
crawler.py `_mark_rpc_node_as_up`) -/

/-- One entry of the `localaddresses` array of a `getnetworkinfo` response;
either field may be missing (`dict.get` returns `None`). -/
structure LocalAddrEntry where
  address : Option String
  port : Option Nat
deriving DecidableEq

/-- A non-empty `getnetworkinfo` JSON result, as read by
`get_local_node_info`; each field is optional because `dict.get` is used.
The caller passes `none` for a failed RPC call (whose `{}` result is falsy). -/
structure NetworkInfoResp where
  localaddresses : List LocalAddrEntry
  protocolversion : Option Int
  subversion : Option String
  connections : Option Nat

/-- The digest of `get_local_node_info`. -/
structure LocalNodeInfo where
  local_addresses : List (String × Nat)
  version : Option Int
  subversion : String
  connections : Nat
deriving DecidableEq

/-- rpc.py `get_local_node_info` (lines 199-233): keep the address/port pairs
where both are truthy (nonempty address, nonzero port); `version` is the raw
`protocolversion` lookup (possibly absent), `subversion` defaults to the
empty string. -/
def get_local_node_info (resp : Option NetworkInfoResp) : Option LocalNodeInfo :=
  match resp with
  | none => none
  | some r =>
    some { local_addresses := r.localaddresses.filterMap (fun e =>
             match e.address, e.port with
             | some ip, some p => if ip ≠ "" ∧ p ≠ 0 then some (ip, p) else none
             | _, _ => none),
           version := r.protocolversion,
           subversion := r.subversion.getD (""),
           connections := r.connections.getD 0 }

/-- crawler.py `_node_key`. -/
def node_key (ip : String) (port : Nat) : String :=
  ip ++ ":" ++ toString port

/-- Python `":" in ip` on the String side. -/
def ip_has_colon (ip : String) : Bool :=
  hasColon ip.toList

/-- The `ipv4_addrs` list comprehension of `_mark_rpc_node_as_up`. -/
def ipv4_addrs_of (addrs : List (String × Nat)) : List (String × Nat) :=
  addrs.filter (fun a => !ip_has_colon a.1)

/-- The `ipv6_addrs` list comprehension of `_mark_rpc_node_as_up`. -/
def ipv6_addrs_of (addrs : List (String × Nat)) : List (String × Nat) :=
  addrs.filter (fun a => ip_has_colon a.1)

/-- The address-selection logic of `_mark_rpc_node_as_up` (lines 832-871):
first IPv4 that passes `_test_address_reachable` (abstracted as `reach`),
else first reachable IPv6, else the first IPv4 if any exists, else the first
IPv6, else nothing. -/
def select_local_address (addrs : List (String × Nat)) (reach : String → Nat → Bool) :
    Option (String × Nat) :=
  match (ipv4_addrs_of addrs).find? (fun a => reach a.1 a.2) with
  | some a => some a
  | none =>
    match (ipv6_addrs_of addrs).find? (fun a => reach a.1 a.2) with
    | some a => some a
    | none =>
      match ipv4_addrs_of addrs with
      | a :: _ => some a
      | [] =>
        match ipv6_addrs_of addrs with
        | a :: _ => some a
        | [] => none

/-- The NodeInfo written for the local node (lines 876-885): status `up`,
`services = 1`, `latency_ms = 1.0`, version fields from the RPC data, no
P2P handshake. -/
def rpc_up_node_info (li : LocalNodeInfo) (ip : String) (port : Nat) (now : Nat) : NodeInfo :=
  { ip := ip, port := port,
    version := some li.subversion,
    protocol_version := li.version,
    services := some 1,
    status := "up",
    latency_ms := some 1,
    user_agent := some li.subversion,
    first_seen := now, last_seen := now }

/-- The crawler state mutated by `_mark_rpc_node_as_up`. -/
structure CrawlerState where
  nodes : String → Option NodeInfo
  pending : List String
  crawled : List String

/-- crawler.py `_mark_rpc_node_as_up` (lines 807-905): select one address,
record it as `up` in `nodes`, discard it from `pending`, add it to `crawled`,
and discard every local address key from `pending`.  (Only the selected key
is ever added to `crawled`.) -/
def mark_rpc_node_as_up (st : CrawlerState) (localInfo : Option LocalNodeInfo)
    (reach : String → Nat → Bool) (now : Nat) : CrawlerState :=
  match localInfo with
  | none => st
  | some li =>
    if li.local_addresses.isEmpty then st
    else
      match select_local_address li.local_addresses reach with
      | none => st
      | some sel =>
        let key := node_key sel.1 sel.2
        let pending1 := removeKey key st.pending
        let pending2 := li.local_addresses.foldl
          (fun p a => removeKey (node_key a.1 a.2) p) pending1
        { nodes := fun x => if x = key then some (rpc_up_node_info li sel.1 sel.2 now)
                            else st.nodes x,
          pending := pending2,
          crawled := addKey key st.crawled }

theorem mem_foldl_removeKey : ∀ (l : List (String × Nat)) (p : List String) (x : String),
    x ∈ l.foldl (fun acc a => removeKey (node_key a.1 a.2) acc) p → x ∈ p := by
  intro l
  induction l with
  | nil => exact fun p x h => h
  | cons b t ih =>
    intro p x h
    have := ih (removeKey (node_key b.1 b.2) p) x h
    exact (mem_removeKey.mp this).1

theorem not_mem_foldl_removeKey : ∀ (l : List (String × Nat)) (p : List String)
    (a : String × Nat), a ∈ l →
    node_key a.1 a.2 ∉ l.foldl (fun acc a => removeKey (node_key a.1 a.2) acc) p := by
  intro l
  induction l with
  | nil => exact fun p a h => absurd h (List.not_mem_nil a)
  | cons b t ih =>
    intro p a ha hmem
    rcases List.mem_cons.mp ha with rfl | ha2
    · have hp := mem_foldl_removeKey t (removeKey (node_key a.1 a.2) p) (node_key a.1 a.2) hmem
      exact (mem_removeKey.mp hp).2 rfl
    · exact ih (removeKey (node_key b.1 b.2) p) a ha2 hmem

theorem select_local_address_mem (addrs : List (String × Nat))
    (reach : String → Nat → Bool) (h : addrs ≠ []) :
    ∃ sel, select_local_address addrs reach = some sel ∧ sel ∈ addrs := by
  unfold select_local_address
  cases h4 : (ipv4_addrs_of addrs).find? (fun a => reach a.1 a.2) with
  | some a =>
    exact ⟨a, rfl, List.mem_of_mem_filter (List.mem_of_find?_eq_some h4)⟩
  | none =>
    cases h6 : (ipv6_addrs_of addrs).find? (fun a => reach a.1 a.2) with
    | some a =>
      exact ⟨a, rfl, List.mem_of_mem_filter (List.mem_of_find?_eq_some h6)⟩
    | none =>
      cases hl4 : ipv4_addrs_of addrs with
      | cons a t =>
        refine ⟨a, rfl, ?_⟩
        have : a ∈ ipv4_addrs_of addrs := by
          rw [hl4]
          exact List.mem_cons_self a t
        exact List.mem_of_mem_filter this
      | nil =>
        cases hl6 : ipv6_addrs_of addrs with
        | cons a t =>
          refine ⟨a, rfl, ?_⟩
          have : a ∈ ipv6_addrs_of addrs := by
            rw [hl6]
            exact List.mem_cons_self a t
          exact List.mem_of_mem_filter this
        | nil =>
          exfalso
          cases haddr : addrs with
          | nil => exact h haddr
          | cons a t =>
            have hmem : a ∈ addrs := by
              rw [haddr]
              exact List.mem_cons_self a t
            cases hc : ip_has_colon a.1 with
            | false =>
              have : a ∈ ipv4_addrs_of addrs := by
                rw [ipv4_addrs_of, List.mem_filter]
                exact ⟨hmem, by rw [hc]; rfl⟩
              rw [hl4] at this
              exact absurd this (List.not_mem_nil a)
            | true =>
              have : a ∈ ipv6_addrs_of addrs := by
                rw [ipv6_addrs_of, List.mem_filter]
                exact ⟨hmem, hc⟩
              rw [hl6] at this
              exact absurd this (List.not_mem_nil a)

theorem select_local_address_fallback {addrs : List (String × Nat)}
    {reach : String → Nat → Bool}
    (hf4 : (ipv4_addrs_of addrs).find? (fun a => reach a.1 a.2) = none)
    (hf6 : (ipv6_addrs_of addrs).find? (fun a => reach a.1 a.2) = none) :
    select_local_address addrs reach =
      (match ipv4_addrs_of addrs with
       | a :: _ => some a
       | [] => (ipv6_addrs_of addrs).head?) := by
  unfold select_local_address
  rw [hf4, hf6]
  cases ipv4_addrs_of addrs with
  | cons a t => rfl
  | nil =>
    cases ipv6_addrs_of addrs with
    | cons a t => rfl
    | nil => rfl

/-- C7 (amended): given local-node info with a non-empty address list,
`_mark_rpc_node_as_up` selects exactly one address — the first IPv4 that
answers a 3-second TCP connect, else the first reachable IPv6, else the first
listed IPv4 (and only when no IPv4 exists at all, the first IPv6 — NOT the
first listed address), records it as status `up` with no P2P handshake,
removes every local-address key from `pending`, and adds ONLY the selected
key to `crawled`; the other addresses are not added to `crawled`. -/
theorem mark_rpc_node_as_up_effects (st : CrawlerState) (li : LocalNodeInfo)
    (reach : String → Nat → Bool) (now : Nat) (h : li.local_addresses ≠ []) :
    ∃ sel, select_local_address li.local_addresses reach = some sel ∧
      sel ∈ li.local_addresses ∧
      (mark_rpc_node_as_up st (some li) reach now).nodes (node_key sel.1 sel.2) =
        some (rpc_up_node_info li sel.1 sel.2 now) ∧
      (rpc_up_node_info li sel.1 sel.2 now).status = "up" ∧
      (mark_rpc_node_as_up st (some li) reach now).crawled =
        addKey (node_key sel.1 sel.2) st.crawled ∧
      (∀ a ∈ li.local_addresses,
        node_key a.1 a.2 ∉ (mark_rpc_node_as_up st (some li) reach now).pending) ∧
      ((∀ a ∈ li.local_addresses, reach a.1 a.2 = false) →
        (ipv4_addrs_of li.local_addresses ≠ [] →
          some sel = (ipv4_addrs_of li.local_addresses).head?) ∧
        (ipv4_addrs_of li.local_addresses = [] →
          some sel = (ipv6_addrs_of li.local_addresses).head?)) := by
  obtain ⟨sel, hsel, hmem⟩ := select_local_address_mem li.local_addresses reach h
  have hemp : li.local_addresses.isEmpty = false := by
    cases hl : li.local_addresses with
    | nil => exact absurd hl h
    | cons a t => rfl
  have hmark : mark_rpc_node_as_up st (some li) reach now =
      { nodes := fun x => if x = node_key sel.1 sel.2 then
                    some (rpc_up_node_info li sel.1 sel.2 now)
                  else st.nodes x,
        pending := li.local_addresses.foldl
          (fun p a => removeKey (node_key a.1 a.2) p)
          (removeKey (node_key sel.1 sel.2) st.pending),
        crawled := addKey (node_key sel.1 sel.2) st.crawled } := by
    simp only [mark_rpc_node_as_up]
    rw [hemp, hsel]
    simp
  refine ⟨sel, hsel, hmem, ?_, rfl, ?_, ?_, ?_⟩
  · rw [hmark]
    simp
  · rw [hmark]
  · intro a ha
    rw [hmark]
    exact not_mem_foldl_removeKey li.local_addresses _ a ha
  · intro hnone
    have hf4 : (ipv4_addrs_of li.local_addresses).find? (fun a => reach a.1 a.2) = none := by
      rw [List.find?_eq_none]
      intro x hx
      rw [hnone x (List.mem_of_mem_filter hx)]
      simp
    have hf6 : (ipv6_addrs_of li.local_addresses).find? (fun a => reach a.1 a.2) = none := by
      rw [List.find?_eq_none]
      intro x hx
      rw [hnone x (List.mem_of_mem_filter hx)]
      simp
    have hfb := select_local_address_fallback hf4 hf6
    rw [hsel] at hfb
    constructor
    · intro hne4
      cases hl4 : ipv4_addrs_of li.local_addresses with
      | nil => exact absurd hl4 hne4
      | cons a t =>
        rw [hl4] at hfb
        exact hfb
    · intro heq4
      rw [heq4] at hfb
      exact hfb

/-- Local-node info used by the C5 witness and the C7 counterexample: an IPv6
address listed first, then an IPv4 address, with a protocol version present. -/
def liMark : LocalNodeInfo :=
  { local_addresses := [("2001:db8::2", 1), ("203.0.113.9", 2)],
    version := some 70015, subversion := "/Dingo:1.18.0/", connections := 1 }

/-- A crawler state with empty discovery sets. -/
def stMark : CrawlerState :=
  { nodes := fun _ => none,
    pending := [node_key ("2001:db8::2") 1, node_key ("203.0.113.9") 2],
    crawled := [] }

/-- C7 counterexample: with no address externally reachable,
`_mark_rpc_node_as_up` falls back to the first IPv4 address, NOT the first
listed address (here the IPv6 one), and the non-selected address is NOT added
to `crawled` (it is merely discarded from `pending`), both contradicting the
claim. -/
theorem mark_rpc_node_as_up_counterexample :
    select_local_address liMark.local_addresses (fun _ _ => false) =
      some (("203.0.113.9" : String), 2) ∧
    liMark.local_addresses.head? = some (("2001:db8::2" : String), 1) ∧
    (("203.0.113.9" : String), 2) ≠ (("2001:db8::2" : String), 1) ∧
    (mark_rpc_node_as_up stMark (some liMark) (fun _ _ => false) 0).crawled =
      [node_key ("203.0.113.9") 2] ∧
    node_key ("2001:db8::2") 1 ∉
      (mark_rpc_node_as_up stMark (some liMark) (fun _ _ => false) 0).crawled ∧
    (mark_rpc_node_as_up stMark (some liMark) (fun _ _ => false) 0).pending = [] := by
  refine ⟨by decide, by decide, by decide, by decide, by decide, by decide⟩

/-- Witness for `mark_rpc_node_as_up_effects` at `liMark`. -/
theorem mark_rpc_node_as_up_effects_witness :
    ∃ sel, select_local_address liMark.local_addresses (fun _ _ => false) = some sel ∧
      sel ∈ liMark.local_addresses ∧
      (mark_rpc_node_as_up stMark (some liMark) (fun _ _ => false) 7).nodes
          (node_key sel.1 sel.2) = some (rpc_up_node_info liMark sel.1 sel.2 7) ∧
      (rpc_up_node_info liMark sel.1 sel.2 7).status = "up" ∧
      (mark_rpc_node_as_up stMark (some liMark) (fun _ _ => false) 7).crawled =
        addKey (node_key sel.1 sel.2) stMark.crawled ∧
      (∀ a ∈ liMark.local_addresses,
        node_key a.1 a.2 ∉
          (mark_rpc_node_as_up stMark (some liMark) (fun _ _ => false) 7).pending) ∧
      ((∀ a ∈ liMark.local_addresses, (fun _ _ => false) a.1 a.2 = false) →
        (ipv4_addrs_of liMark.local_addresses ≠ [] →
          some sel = (ipv4_addrs_of liMark.local_addresses).head?) ∧
        (ipv4_addrs_of liMark.local_addresses = [] →
          some sel = (ipv6_addrs_of liMark.local_addresses).head?)) :=
  mark_rpc_node_as_up_effects stMark liMark (fun _ _ => false) 7 (by decide)

/-- C5 (amended): a NodeInfo classified `up` by a completed handshake in
`_try_connect_with_protocol` always has non-null `protocol_version` and
`user_agent`; the entry created by `_mark_rpc_node_as_up` always has non-null
`user_agent` (the RPC `subversion`, defaulting to the empty string), and its
`protocol_version` is non-null whenever the `getnetworkinfo` response carried
a `protocolversion` — when that field is absent the entry is `up` with a null
`protocol_version` (see the counterexample). -/
theorem up_nodes_have_version_info :
    (∀ (ip : String) (port now : Nat) (env : DialEnv) (ni : NodeInfo),
      try_connect_with_protocol ip port now env = some ni → ni.status = "up" →
      ni.protocol_version ≠ none ∧ ni.user_agent ≠ none) ∧
    (∀ (st : CrawlerState) (li : LocalNodeInfo) (reach : String → Nat → Bool)
      (now : Nat) (k : String) (ni : NodeInfo),
      li.version ≠ none →
      (mark_rpc_node_as_up st (some li) reach now).nodes k = some ni →
      st.nodes k = some ni ∨
        (ni.status = "up" ∧ ni.protocol_version ≠ none ∧ ni.user_agent ≠ none)) := by
  constructor
  · intro ip port now env ni h hs
    obtain ⟨tl, ro, fl, ap⟩ := env
    cases tl with
    | none => exact Option.noConfusion h
    | some tcpLatency =>
      cases ro with
      | noData =>
        simp only [try_connect_with_protocol] at h
        injection h with h2
        rw [← h2] at hs
        have hs2 : ("reachable" : String) = "up" := hs
        exact absurd hs2 (by decide)
      | someData msgs =>
        cases hlv : last_version_data msgs with
        | none =>
          simp only [try_connect_with_protocol, hlv] at h
          injection h with h2
          rw [← h2] at hs
          have hs2 : ("reachable" : String) = "up" := hs
          exact absurd hs2 (by decide)
        | some vd =>
          simp only [try_connect_with_protocol, hlv] at h
          injection h with h2
          rw [← h2]
          exact ⟨by simp, by simp⟩
  · intro st li reach now k ni hv h
    cases hemp : li.local_addresses.isEmpty with
    | true =>
      left
      have hm : mark_rpc_node_as_up st (some li) reach now = st := by
        simp only [mark_rpc_node_as_up]
        rw [hemp]
        simp
      rw [hm] at h
      exact h
    | false =>
      cases hsel : select_local_address li.local_addresses reach with
      | none =>
        left
        have hm : mark_rpc_node_as_up st (some li) reach now = st := by
          simp only [mark_rpc_node_as_up]
          rw [hemp, hsel]
          simp
        rw [hm] at h
        exact h
      | some sel =>
        have hm : mark_rpc_node_as_up st (some li) reach now =
            { nodes := fun x => if x = node_key sel.1 sel.2 then
                          some (rpc_up_node_info li sel.1 sel.2 now)
                        else st.nodes x,
              pending := li.local_addresses.foldl
                (fun p a => removeKey (node_key a.1 a.2) p)
                (removeKey (node_key sel.1 sel.2) st.pending),
              crawled := addKey (node_key sel.1 sel.2) st.crawled } := by
          simp only [mark_rpc_node_as_up]
          rw [hemp, hsel]
          simp
        rw [hm] at h
        simp only [] at h
        by_cases hk : k = node_key sel.1 sel.2
        · right
          rw [if_pos hk] at h
          injection h with h2
          rw [← h2]
          refine ⟨rfl, ?_, by simp [rpc_up_node_info]⟩
          simp only [rpc_up_node_info]
          exact hv
        · left
          rw [if_neg hk] at h
          exact h

/-- The version frame of the C5 witness. -/
def vdW : VersionData :=
  { version := 70015, services := 1, start_height := 100, user_agent := "/Dingo:1.18.0/" }

/-- The dial environment of the C5 witness: a completed handshake. -/
def envW : DialEnv :=
  { tcp_latency := some 3, read_outcome := ReadOutcome.someData [PMsg.versionMsg vdW],
    full_latency := 44, addr_peers := [] }

/-- The NodeInfo produced by `try_connect_with_protocol` on `envW`. -/
def niW : NodeInfo :=
  { ip := "203.0.113.5", port := 33117,
    version := some "/Dingo:1.18.0/", protocol_version := some 70015,
    services := some 1, start_height := some 100,
    user_agent := some "/Dingo:1.18.0/", latency_ms := some 44,
    status := "up", first_seen := 0, last_seen := 0 }

/-- Witness for `up_nodes_have_version_info`: both conjuncts applied at
concrete inputs. -/
theorem up_nodes_have_version_info_witness :
    try_connect_with_protocol ("203.0.113.5") 33117 0 envW = some niW ∧
    (niW.protocol_version ≠ none ∧ niW.user_agent ≠ none) ∧
    ((rpc_up_node_info liMark ("203.0.113.9") 2 0).status = "up" ∧
      (rpc_up_node_info liMark ("203.0.113.9") 2 0).protocol_version ≠ none ∧
      (rpc_up_node_info liMark ("203.0.113.9") 2 0).user_agent ≠ none) := by
  have h1 := up_nodes_have_version_info.1 ("203.0.113.5") 33117 0 envW niW (by decide) rfl
  have h2 := up_nodes_have_version_info.2 stMark liMark (fun _ _ => false) 0
    (node_key ("203.0.113.9") 2) (rpc_up_node_info liMark ("203.0.113.9") 2 0)
    (by decide) (by decide)
  exact ⟨by decide, h1, h2.resolve_left (by decide)⟩

/-- The `getnetworkinfo` response of the C5 counterexample: a local address is
listed but the `protocolversion` field is absent. -/
def respNoPv : NetworkInfoResp :=
  { localaddresses := [{ address := some "203.0.113.9", port := some 2 }],
    protocolversion := none, subversion := some "/Dingo:1.18.0/",
    connections := some 8 }

/-- The `get_local_node_info` digest of `respNoPv`. -/
def liNoPv : LocalNodeInfo :=
  { local_addresses := [("203.0.113.9", 2)], version := none,
    subversion := "/Dingo:1.18.0/", connections := 8 }

/-- C5 counterexample: when the RPC `getnetworkinfo` response lacks
`protocolversion`, `_mark_rpc_node_as_up` still records a NodeInfo with
status `up` — but its `protocol_version` is null, contradicting the claimed
invariant for the RPC-created entry. -/
theorem rpc_up_node_with_null_protocol_version :
    get_local_node_info (some respNoPv) = some liNoPv ∧
    (mark_rpc_node_as_up { nodes := fun _ => none, pending := [], crawled := [] }
        (get_local_node_info (some respNoPv)) (fun _ _ => false) 0).nodes
        (node_key ("203.0.113.9") 2) =
      some (rpc_up_node_info liNoPv ("203.0.113.9") 2 0) ∧
    (rpc_up_node_info liNoPv ("203.0.113.9") 2 0).status = "up" ∧
    (rpc_up_node_info liNoPv ("203.0.113.9") 2 0).protocol_version = none := by
  refine ⟨by decide, by decide, rfl, rfl⟩

/-! ## The crawl pass as a cooperative-concurrency machine
(crawler.py `_crawl_node` and `_crawl_pending`)

Within a batch, `asyncio.gather` interleaves the workers only at `await`
points.  `_crawl_node` therefore consists of three atomic blocks per worker:

* lines 500-507 (`A1`): `pending.discard(key)` then the `crawled` membership
  check — no await separates them;
* line 512 (`dial`): the awaited `_connect_and_handshake`, during which any
  other worker may run; the Dialer invocation for this key happens here;
* lines 514-543 (`A3`): `crawled.add(key)`, the `nodes` update and the
  admission of discovered peers — again synchronous.

`_crawl_pending` awaits every task of a batch before taking the next batch,
so batches never overlap.  `valid` abstracts `_is_valid_ip` composed with
`_node_key`; the dial outcome (the discovered peer keys, empty for
reachable/down results) is chosen by the environment at the dial step.
The `nodes` map does not influence control flow and is omitted here. -/

/-- Program counter of one `_crawl_node` worker. -/
inductive WPc where
  | ready
  | toDial
  | gotResult (peers : List String)
  | done
deriving DecidableEq

/-- One worker of a batch: its target key and its program counter. -/
structure Worker where
  key : String
  pc : WPc
deriving DecidableEq

/-- The peer-admission loop at the end of `_crawl_node` (lines 538-543),
with `valid` abstracting the `_is_valid_ip` check on the peer's ip. -/
def admit_peers (valid : String → Bool) : CrawlSt → List String → CrawlSt
  | st, [] => st
  | st, p :: ps =>
    admit_peers valid
      (if p ∉ st.crawled ∧ p ∉ st.pending ∧ valid p = true then
        { st with pending := addKey p st.pending }
      else st) ps

/-- The post-dial atomic block of `_crawl_node` (lines 514-543):
`crawled.add(key)` happens before any peer is admitted. -/
def finish_crawl (valid : String → Bool) (k : String) (ps : List String)
    (st : CrawlSt) : CrawlSt :=
  admit_peers valid { st with crawled := addKey k st.crawled } ps

theorem admit_peers_crawled (valid : String → Bool) :
    ∀ ps st, (admit_peers valid st ps).crawled = st.crawled := by
  intro ps
  induction ps with
  | nil => exact fun st => rfl
  | cons p t ih =>
    intro st
    rw [admit_peers, ih]
    split <;> rfl

theorem finish_crawl_crawled (valid : String → Bool) (k : String) (ps : List String)
    (st : CrawlSt) : (finish_crawl valid k ps st).crawled = addKey k st.crawled := by
  unfold finish_crawl
  rw [admit_peers_crawled]

/-- One atomic step of one worker of the running batch, chosen by the
scheduler.  The first two constructors are the `A1` block (the key leaves
`pending` before the `crawled` check in both cases); `dialStep` emits the key
into the trace and lets the environment pick the dial outcome; `finishDial`
is the `A3` block. -/
inductive BStep (valid : String → Bool) :
    CrawlSt → List Worker → List String → CrawlSt → List Worker → Prop where
  | skipCrawled (s : CrawlSt) (l r : List Worker) (k : String)
      (hk : k ∈ s.crawled) :
      BStep valid s (l ++ { key := k, pc := WPc.ready } :: r) []
        { s with pending := removeKey k s.pending }
        (l ++ { key := k, pc := WPc.done } :: r)
  | beginDial (s : CrawlSt) (l r : List Worker) (k : String)
      (hk : k ∉ s.crawled) :
      BStep valid s (l ++ { key := k, pc := WPc.ready } :: r) []
        { s with pending := removeKey k s.pending }
        (l ++ { key := k, pc := WPc.toDial } :: r)
  | dialStep (s : CrawlSt) (l r : List Worker) (k : String) (ps : List String) :
      BStep valid s (l ++ { key := k, pc := WPc.toDial } :: r) [k]
        s (l ++ { key := k, pc := WPc.gotResult ps } :: r)
  | finishDial (s : CrawlSt) (l r : List Worker) (k : String) (ps : List String) :
      BStep valid s (l ++ { key := k, pc := WPc.gotResult ps } :: r) []
        (finish_crawl valid k ps s) (l ++ { key := k, pc := WPc.done } :: r)

/-- Any interleaving of worker steps; the trace is the list of dialed keys in
order. -/
inductive BExec (valid : String → Bool) :
    CrawlSt → List Worker → List String → CrawlSt → List Worker → Prop where
  | refl (s : CrawlSt) (ws : List Worker) : BExec valid s ws [] s ws
  | step {s ws e s1 ws1 tr s2 ws2 trAll} :
      BStep valid s ws e s1 ws1 → BExec valid s1 ws1 tr s2 ws2 →
      trAll = e ++ tr → BExec valid s ws trAll s2 ws2

/-- crawler.py `_crawl_pending` (lines 967-984): as long as the pass runs,
take a batch of distinct keys out of the current `pending`, run its workers
to completion under an arbitrary interleaving, and repeat. -/
inductive PassExec (valid : String → Bool) : CrawlSt → List String → CrawlSt → Prop where
  | stop (s : CrawlSt) : PassExec valid s [] s
  | batch {s tr s1 ws1 tr2 s2 trAll} (B : List String)
      (hBp : ∀ k ∈ B, k ∈ s.pending) (hBn : B.Nodup)
      (hex : BExec valid s (B.map (fun k => { key := k, pc := WPc.ready })) tr s1 ws1)
      (hdone : ∀ w ∈ ws1, w.pc = WPc.done)
      (hrest : PassExec valid s1 tr2 s2)
      (heq : trAll = tr ++ tr2) :
      PassExec valid s trAll s2

/-- The invariant carried through one batch, relative to the `crawled` set
`C0` at batch start and the accumulated dial trace `tr`. -/
structure BInv (C0 : List String) (s : CrawlSt) (ws : List Worker)
    (tr : List String) : Prop where
  mono : ∀ k ∈ C0, k ∈ s.crawled
  keysNodup : (ws.map Worker.key).Nodup
  trNodup : tr.Nodup
  trFresh : ∀ k ∈ tr, k ∉ C0
  trState : ∀ k ∈ tr, k ∈ s.crawled ∨
    ∃ w ∈ ws, w.key = k ∧ ∃ ps, w.pc = WPc.gotResult ps
  trNoPre : ∀ k ∈ tr, ∀ w ∈ ws, w.key = k →
    w.pc ≠ WPc.ready ∧ w.pc ≠ WPc.toDial
  activeFresh : ∀ w ∈ ws, (w.pc = WPc.toDial ∨ ∃ ps, w.pc = WPc.gotResult ps) →
    w.key ∉ C0

theorem mem_middle_elim {α : Type} {w a : α} {l r : List α}
    (h : w ∈ l ++ a :: r) : w = a ∨ w ∈ l ++ r := by
  rcases List.mem_append.mp h with h1 | h2
  · exact Or.inr (List.mem_append.mpr (Or.inl h1))
  · rcases List.mem_cons.mp h2 with h3 | h4
    · exact Or.inl h3
    · exact Or.inr (List.mem_append.mpr (Or.inr h4))

theorem mem_middle_of_side {α : Type} {w : α} (a : α) {l r : List α}
    (h : w ∈ l ++ r) : w ∈ l ++ a :: r := by
  rcases List.mem_append.mp h with h1 | h2
  · exact List.mem_append.mpr (Or.inl h1)
  · exact List.mem_append.mpr (Or.inr (List.mem_cons.mpr (Or.inr h2)))

theorem middle_self_mem {α : Type} (a : α) (l r : List α) : a ∈ l ++ a :: r :=
  List.mem_append.mpr (Or.inr (List.mem_cons.mpr (Or.inl rfl)))

theorem key_ne_of_middle {l r : List Worker} {a w : Worker}
    (h : ((l ++ a :: r).map Worker.key).Nodup) (hw : w ∈ l ++ r) :
    w.key ≠ a.key := by
  rw [List.map_append, List.map_cons] at h
  have h2 := List.nodup_middle.mp h
  have h3 : a.key ∉ l.map Worker.key ++ r.map Worker.key :=
    (List.nodup_cons.mp h2).1
  intro he
  apply h3
  rw [← List.map_append]
  exact he ▸ List.mem_map_of_mem Worker.key hw

theorem keys_nodup_replace (l r : List Worker) (a b : Worker)
    (hab : b.key = a.key)
    (h : ((l ++ a :: r).map Worker.key).Nodup) :
    ((l ++ b :: r).map Worker.key).Nodup := by
  rw [List.map_append, List.map_cons] at h ⊢
  rw [hab]
  exact h

theorem bstep_preserves {valid : String → Bool} {C0 : List String}
    {s : CrawlSt} {ws : List Worker} {e : List String}
    {s2 : CrawlSt} {ws2 : List Worker} {tr : List String}
    (hstep : BStep valid s ws e s2 ws2) (hinv : BInv C0 s ws tr) :
    BInv C0 s2 ws2 (tr ++ e) := by
  cases hstep with
  | skipCrawled l r k hk =>
    rw [List.append_nil]
    refine ⟨hinv.mono, keys_nodup_replace l r { key := k, pc := WPc.ready }
      { key := k, pc := WPc.done } rfl hinv.keysNodup, hinv.trNodup,
      hinv.trFresh, ?_, ?_, ?_⟩
    · intro k2 hk2
      rcases hinv.trState k2 hk2 with hc | ⟨w, hw, hwk, ps, hpc⟩
      · exact Or.inl hc
      · rcases mem_middle_elim hw with rfl | hside
        · exact absurd hpc (by simp)
        · exact Or.inr ⟨w, mem_middle_of_side _ hside, hwk, ps, hpc⟩
    · intro k2 hk2 w hw hwk
      rcases mem_middle_elim hw with rfl | hside
      · exact ⟨by simp, by simp⟩
      · exact hinv.trNoPre k2 hk2 w (mem_middle_of_side _ hside) hwk
    · intro w hw hpc
      rcases mem_middle_elim hw with rfl | hside
      · rcases hpc with h1 | ⟨ps, h2⟩
        · exact absurd h1 (by simp)
        · exact absurd h2 (by simp)
      · exact hinv.activeFresh w (mem_middle_of_side _ hside) hpc
  | beginDial l r k hk =>
    rw [List.append_nil]
    refine ⟨hinv.mono, keys_nodup_replace l r { key := k, pc := WPc.ready }
      { key := k, pc := WPc.toDial } rfl hinv.keysNodup, hinv.trNodup,
      hinv.trFresh, ?_, ?_, ?_⟩
    · intro k2 hk2
      rcases hinv.trState k2 hk2 with hc | ⟨w, hw, hwk, ps, hpc⟩
      · exact Or.inl hc
      · rcases mem_middle_elim hw with rfl | hside
        · exact absurd hpc (by simp)
        · exact Or.inr ⟨w, mem_middle_of_side _ hside, hwk, ps, hpc⟩
    · intro k2 hk2 w hw hwk
      rcases mem_middle_elim hw with rfl | hside
      · exfalso
        have hwk2 : ({ key := k, pc := WPc.ready } : Worker).key = k2 := hwk
        exact (hinv.trNoPre k2 hk2 _ (middle_self_mem _ l r) hwk2).1 rfl
      · exact hinv.trNoPre k2 hk2 w (mem_middle_of_side _ hside) hwk
    · intro w hw hpc
      rcases mem_middle_elim hw with rfl | hside
      · intro hc
        exact hk (hinv.mono k hc)
      · exact hinv.activeFresh w (mem_middle_of_side _ hside) hpc
  | dialStep l r k ps =>
    have hknotr : k ∉ tr := by
      intro hin
      exact (hinv.trNoPre k hin _ (middle_self_mem _ l r) rfl).2 rfl
    have hkfresh : k ∉ C0 :=
      hinv.activeFresh _ (middle_self_mem _ l r) (Or.inl rfl)
    refine ⟨hinv.mono, keys_nodup_replace l r { key := k, pc := WPc.toDial }
      { key := k, pc := WPc.gotResult ps } rfl hinv.keysNodup, ?_, ?_, ?_, ?_, ?_⟩
    · rw [List.nodup_append]
      exact ⟨hinv.trNodup, List.nodup_singleton k,
        fun a ha hb => hknotr ((List.mem_singleton.mp hb) ▸ ha)⟩
    · intro k2 hk2
      rcases List.mem_append.mp hk2 with h1 | h2
      · exact hinv.trFresh k2 h1
      · rw [List.mem_singleton.mp h2]
        exact hkfresh
    · intro k2 hk2
      rcases List.mem_append.mp hk2 with h1 | h2
      · rcases hinv.trState k2 h1 with hc | ⟨w, hw, hwk, ps2, hpc⟩
        · exact Or.inl hc
        · rcases mem_middle_elim hw with rfl | hside
          · exact absurd hpc (by simp)
          · exact Or.inr ⟨w, mem_middle_of_side _ hside, hwk, ps2, hpc⟩
      · rw [List.mem_singleton.mp h2]
        exact Or.inr ⟨_, middle_self_mem _ l r, rfl, ps, rfl⟩
    · intro k2 hk2 w hw hwk
      rcases mem_middle_elim hw with rfl | hside
      · exact ⟨by simp, by simp⟩
      · rcases List.mem_append.mp hk2 with h1 | h2
        · exact hinv.trNoPre k2 h1 w (mem_middle_of_side _ hside) hwk
        · exfalso
          exact key_ne_of_middle hinv.keysNodup hside
            (by rw [hwk, List.mem_singleton.mp h2])
    · intro w hw hpc
      rcases mem_middle_elim hw with rfl | hside
      · exact hkfresh
      · exact hinv.activeFresh w (mem_middle_of_side _ hside) hpc
  | finishDial l r k ps =>
    have hc2 : (finish_crawl valid k ps s).crawled = addKey k s.crawled :=
      finish_crawl_crawled valid k ps s
    rw [List.append_nil]
    refine ⟨?_, keys_nodup_replace l r { key := k, pc := WPc.gotResult ps }
      { key := k, pc := WPc.done } rfl hinv.keysNodup, hinv.trNodup,
      hinv.trFresh, ?_, ?_, ?_⟩
    · intro k2 hk2
      rw [hc2]
      exact mem_addKey.mpr (Or.inr (hinv.mono k2 hk2))
    · intro k2 hk2
      rcases hinv.trState k2 hk2 with hc | ⟨w, hw, hwk, ps2, hpc⟩
      · left
        rw [hc2]
        exact mem_addKey.mpr (Or.inr hc)
      · rcases mem_middle_elim hw with rfl | hside
        · left
          rw [hc2]
          exact mem_addKey.mpr (Or.inl hwk.symm)
        · exact Or.inr ⟨w, mem_middle_of_side _ hside, hwk, ps2, hpc⟩
    · intro k2 hk2 w hw hwk
      rcases mem_middle_elim hw with rfl | hside
      · exact ⟨by simp, by simp⟩
      · exact hinv.trNoPre k2 hk2 w (mem_middle_of_side _ hside) hwk
    · intro w hw hpc
      rcases mem_middle_elim hw with rfl | hside
      · rcases hpc with h1 | ⟨ps2, h2⟩
        · exact absurd h1 (by simp)
        · exact absurd h2 (by simp)
      · exact hinv.activeFresh w (mem_middle_of_side _ hside) hpc

theorem bexec_preserves {valid : String → Bool} {C0 : List String} :
    ∀ {s : CrawlSt} {ws : List Worker} {tr : List String} {s2 : CrawlSt}
      {ws2 : List Worker}, BExec valid s ws tr s2 ws2 →
    ∀ tr0, BInv C0 s ws tr0 → BInv C0 s2 ws2 (tr0 ++ tr) := by
  intro s ws tr s2 ws2 hex
  induction hex with
  | refl s ws =>
    intro tr0 h
    rw [List.append_nil]
    exact h
  | step hstep hrest heq ih =>
    intro tr0 h
    have h1 := bstep_preserves hstep h
    have h2 := ih _ h1
    rw [heq, ← List.append_assoc]
    exact h2

theorem batch_outcome {valid : String → Bool} {s : CrawlSt} {B : List String}
    {tr : List String} {s1 : CrawlSt} {ws1 : List Worker}
    (hBn : B.Nodup)
    (hex : BExec valid s (B.map (fun k => { key := k, pc := WPc.ready })) tr s1 ws1)
    (hdone : ∀ w ∈ ws1, w.pc = WPc.done) :
    tr.Nodup ∧ (∀ k ∈ tr, k ∉ s.crawled ∧ k ∈ s1.crawled) ∧
      (∀ k ∈ s.crawled, k ∈ s1.crawled) := by
  have hinit : BInv s.crawled s
      (B.map (fun k => { key := k, pc := WPc.ready })) [] := by
    refine ⟨fun k h => h, ?_, List.nodup_nil,
      fun k h => absurd h (List.not_mem_nil k),
      fun k h => absurd h (List.not_mem_nil k),
      fun k h => absurd h (List.not_mem_nil k), ?_⟩
    · rw [List.map_map]
      have he : (Worker.key ∘ fun k => ({ key := k, pc := WPc.ready } : Worker)) = id := rfl
      rw [he, List.map_id]
      exact hBn
    · intro w hw hpc
      obtain ⟨k, _, rfl⟩ := List.mem_map.mp hw
      rcases hpc with h1 | ⟨ps, h2⟩
      · exact absurd h1 (by simp)
      · exact absurd h2 (by simp)
  have hfin := bexec_preserves hex [] hinit
  rw [List.nil_append] at hfin
  refine ⟨hfin.trNodup, fun k hk => ⟨hfin.trFresh k hk, ?_⟩, hfin.mono⟩
  rcases hfin.trState k hk with hc | ⟨w, hw, hwk, ps, hpc⟩
  · exact hc
  · have hd := hdone w hw
    rw [hd] at hpc
    exact absurd hpc (by simp)

theorem pass_exec_props {valid : String → Bool} :
    ∀ {s : CrawlSt} {tr : List String} {s2 : CrawlSt}, PassExec valid s tr s2 →
    tr.Nodup ∧ (∀ k ∈ tr, k ∉ s.crawled ∧ k ∈ s2.crawled) ∧
      (∀ k ∈ s.crawled, k ∈ s2.crawled) := by
  intro s tr s2 hp
  induction hp with
  | stop s =>
    exact ⟨List.nodup_nil, fun k h => absurd h (List.not_mem_nil k), fun k h => h⟩
  | batch B hBp hBn hex hdone hrest heq ih =>
    obtain ⟨h1, h2, h3⟩ := batch_outcome hBn hex hdone
    obtain ⟨h4, h5, h6⟩ := ih
    subst heq
    refine ⟨?_, ?_, ?_⟩
    · rw [List.nodup_append]
      refine ⟨h1, h4, ?_⟩
      intro a ha hb
      exact (h5 a hb).1 ((h2 a ha).2)
    · intro k hk
      rcases List.mem_append.mp hk with hk1 | hk2
      · exact ⟨(h2 k hk1).1, h6 _ ((h2 k hk1).2)⟩
      · exact ⟨fun hc => (h5 k hk2).1 (h3 k hc), (h5 k hk2).2⟩
    · exact fun k hk => h6 k (h3 k hk)

/-- C2: in any execution of a crawl pass — any batches drawn from `pending`,
any interleaving of the workers' atomic blocks, any dial outcomes including
addr responses that re-admit an in-flight key to `pending` — the Dialer is
invoked at most once per key: the trace of dialed keys has no duplicate.
This rests on `_crawl_node` discarding the key from `pending` before the
`crawled` check, adding the key to `crawled` before admitting discovered
peers, and `_crawl_pending` awaiting the whole batch before taking the next. -/
theorem crawl_pass_dials_each_key_at_most_once (valid : String → Bool)
    (s : CrawlSt) (tr : List String) (s2 : CrawlSt)
    (h : PassExec valid s tr s2) : tr.Nodup :=
  (pass_exec_props h).1

/-- Witness for `crawl_pass_dials_each_key_at_most_once`: a two-batch pass in
which the first worker's addr response admits a new key, and the dial trace
has no duplicate. -/
theorem crawl_pass_dials_each_key_at_most_once_witness :
    PassExec (fun _ => true) { pending := ["a:1"], crawled := [] }
      ["a:1", "b:2"] { pending := [], crawled := ["b:2", "a:1"] } ∧
    (["a:1", "b:2"] : List String).Nodup := by
  have hex1 : BExec (fun _ => true) { pending := ["a:1"], crawled := [] }
      [{ key := "a:1", pc := WPc.ready }] ["a:1"]
      { pending := ["b:2"], crawled := ["a:1"] }
      [{ key := "a:1", pc := WPc.done }] := by
    refine BExec.step (BStep.beginDial _ [] [] ("a:1") (by decide)) ?_ rfl
    refine BExec.step (BStep.dialStep _ [] [] ("a:1") ["b:2"]) ?_ rfl
    refine BExec.step (BStep.finishDial _ [] [] ("a:1") ["b:2"]) ?_ rfl
    exact BExec.refl _ _
  have hex2 : BExec (fun _ => true) { pending := ["b:2"], crawled := ["a:1"] }
      [{ key := "b:2", pc := WPc.ready }] ["b:2"]
      { pending := [], crawled := ["b:2", "a:1"] }
      [{ key := "b:2", pc := WPc.done }] := by
    refine BExec.step (BStep.beginDial _ [] [] ("b:2") (by decide)) ?_ rfl
    refine BExec.step (BStep.dialStep _ [] [] ("b:2") []) ?_ rfl
    refine BExec.step (BStep.finishDial _ [] [] ("b:2") []) ?_ rfl
    exact BExec.refl _ _
  have hpass : PassExec (fun _ => true) { pending := ["a:1"], crawled := [] }
      ["a:1", "b:2"] { pending := [], crawled := ["b:2", "a:1"] } :=
    PassExec.batch ["a:1"] (by decide) (by decide) hex1 (by decide)
      (PassExec.batch ["b:2"] (by decide) (by decide) hex2 (by decide)
        (PassExec.stop _) rfl) rfl
  exact ⟨hpass, crawl_pass_dials_each_key_at_most_once _ _ _ _ hpass⟩
